import Mathlib

/-!
Verification development for the hybrid-retrieval core (memory graph,
embedding index, RRF fusion, retrieval policy) of the deep-research
repository.  Python sources are shallowly embedded: dictionaries become
association lists with insertion-preserving upsert, Python floats become
exact rationals, sets become finite sets, and code that can raise returns
Except.  Definitions follow the Python sources line by line; where a
third-party library call (networkx) decides behaviour, its documented
semantics is modelled and noted at the definition.
-/

/-- Types of nodes in the knowledge graph (memory_graph.py NodeType). -/
inductive NodeType where
  | academic_paper
  | github_project
  | community_discussion
  | concept
  | author
  | framework
  | technique
  | dataset
  | metric
deriving DecidableEq

/-- Types of relationships in the knowledge graph (memory_graph.py EdgeType). -/
inductive EdgeType where
  | cites
  | implements
  | discusses
  | related_to
  | authored_by
  | uses_framework
  | introduces
  | evaluates_on
  | optimizes
  | similar_to
deriving DecidableEq

/-- Enumeration of all EdgeType members, in declaration order. -/
def EdgeType.all : List EdgeType :=
  [.cites, .implements, .discusses, .related_to, .authored_by,
   .uses_framework, .introduces, .evaluates_on, .optimizes, .similar_to]

/-- Python attribute values occurring in this code base: strings, numbers,
lists of strings, and None. -/
inductive PyVal where
  | str (s : String)
  | num (q : ℚ)
  | strList (l : List String)
  | null
deriving DecidableEq

/-- Encode an optional string the way dict.get returns it (None when absent). -/
def pyOptStr : Option String → PyVal
  | some s => .str s
  | none => .null

/-- Encode an optional number the way dict.get returns it (None when absent). -/
def pyOptNum : Option ℚ → PyVal
  | some q => .num q
  | none => .null

/-- Node in the knowledge graph (memory_graph.py GraphNode). -/
structure GraphNode where
  id : String
  type : NodeType
  attributes : List (String × PyVal) := []
deriving DecidableEq

/-- Edge in the knowledge graph (memory_graph.py GraphEdge). -/
structure GraphEdge where
  source : String
  target : String
  type : EdgeType
  attributes : List (String × PyVal) := []
  weight : ℚ := 1
deriving DecidableEq

/-- Insert or overwrite a key in a Python dict modelled as an association
list: overwriting keeps the entry at its original position, new keys are
appended, exactly like CPython dict insertion order. -/
def dictInsert {β : Type} (l : List (String × β)) (k : String) (v : β) :
    List (String × β) :=
  match l with
  | [] => [(k, v)]
  | (k0, v0) :: rest =>
      if k0 = k then (k, v) :: rest else (k0, v0) :: dictInsert rest k v

/-- Read a key from a Python dict modelled as an association list
(dict.get, returning None when the key is absent). -/
def dictGet {β : Type} (l : List (String × β)) (k : String) : Option β :=
  match l with
  | [] => none
  | (k0, v0) :: rest => if k0 = k then some v0 else dictGet rest k

/-- State of memory_graph.py SemanticMemory: the private node dict, the
private edge list, and the node set of the mirrored networkx MultiDiGraph
(networkx auto-creates endpoint nodes on add_edge). -/
structure SemanticMemory where
  nodes : List (String × GraphNode) := []
  edges : List GraphEdge := []
  nxNodes : Finset String := ∅

/-- Fresh SemanticMemory, as produced by the constructor. -/
def emptyMemory : SemanticMemory := {}

/-- SemanticMemory.add_node: stores the node under its id in the node dict
(replacing any previous node of that id wholesale) and adds the id to the
networkx graph. -/
def SemanticMemory.add_node (m : SemanticMemory) (node : GraphNode) :
    SemanticMemory :=
  { m with
    nodes := dictInsert m.nodes node.id node
    nxNodes := insert node.id m.nxNodes }

/-- SemanticMemory.add_edge: appends the edge to the private edge list and
mirrors it into the networkx graph, which auto-creates missing endpoint
nodes.  No validation of endpoints is performed anywhere in the method. -/
def SemanticMemory.add_edge (m : SemanticMemory) (edge : GraphEdge) :
    SemanticMemory :=
  { m with
    edges := m.edges ++ [edge]
    nxNodes := insert edge.target (insert edge.source m.nxNodes) }

/-- Lowercase a string character by character (Python str.lower on the
ASCII identifiers this code handles). -/
def pyLower (s : String) : String := String.mk (s.data.map Char.toLower)

/-- Replace every occurrence of one character (Python str.replace with a
single-character pattern, the only form used by the source). -/
def pyReplaceChar (s : String) (c r : Char) : String :=
  String.mk (s.data.map (fun a => if a = c then r else a))

/-- Payload accepted by SemanticMemory.add_paper; an Option field models
presence of the corresponding dict key. -/
structure PaperData where
  arxiv_id : Option String := none
  pid : Option String := none
  title : Option String := none
  authors : List String := []
  year : Option ℚ := none
  venue : Option String := none
  abstract : Option String := none
  citation_count : Option ℚ := none
  url : Option String := none
  url_markdown : Option String := none
  ptype : Option String := none
  key_concepts : List String := []

/-- Paper node built by SemanticMemory.add_paper from its payload. -/
def paperNodeOf (paper_data : PaperData) (arxiv_id : String) : GraphNode :=
  { id := "paper_" ++ arxiv_id
    type := NodeType.academic_paper
    attributes :=
      [("arxiv_id", .str arxiv_id),
       ("title", .str (paper_data.title.getD "")),
       ("authors", .strList paper_data.authors),
       ("year", pyOptNum paper_data.year),
       ("venue", pyOptStr paper_data.venue),
       ("abstract", .str (paper_data.abstract.getD "")),
       ("citation_count", .num (paper_data.citation_count.getD 0)),
       ("url", .str (paper_data.url.getD "")),
       ("url_markdown", .str (paper_data.url_markdown.getD "")),
       ("type_category", .str (paper_data.ptype.getD "sota"))] }

/-- Author node id slug used by add_paper. -/
def authorIdOf (author : String) : String :=
  "author_" ++ pyReplaceChar (pyLower author) ' ' '_'

/-- Concept node id slug used by add_paper. -/
def conceptIdOf (concept : String) : String :=
  "concept_" ++ pyReplaceChar (pyLower concept) ' ' '_'

/-- SemanticMemory.add_paper: resolves the identity key via
paper_data.get("arxiv_id", paper_data.get("id", "")), returns "" and leaves
the store untouched when that is empty, otherwise adds the paper node, one
node and one authored_by edge per author, and one node and one introduces
edge per key concept.  Returns the paper node id with the updated store. -/
def SemanticMemory.add_paper (m : SemanticMemory) (paper_data : PaperData) :
    String × SemanticMemory :=
  let arxiv_id := paper_data.arxiv_id.getD (paper_data.pid.getD "")
  if arxiv_id = "" then ("", m)
  else
    let paper_node := paperNodeOf paper_data arxiv_id
    let m1 := m.add_node paper_node
    let m2 := paper_data.authors.foldl (fun acc author =>
      let author_id := authorIdOf author
      let acc1 := acc.add_node
        { id := author_id, type := NodeType.author,
          attributes := [("name", .str author)] }
      acc1.add_edge
        { source := paper_node.id, target := author_id,
          type := EdgeType.authored_by, weight := 1 }) m1
    let m3 := paper_data.key_concepts.foldl (fun acc concept =>
      let concept_id := conceptIdOf concept
      let acc1 := acc.add_node
        { id := concept_id, type := NodeType.concept,
          attributes := [("name", .str concept)] }
      acc1.add_edge
        { source := paper_node.id, target := concept_id,
          type := EdgeType.introduces,
          attributes := [("context", .str "paper discusses concept")],
          weight := 1 }) m2
    (paper_node.id, m3)

/-- Distinct successor targets of a node, read off the edge list exactly as
the adjacency-list branch of SemanticMemory indexes them (the private
_adjacency dict maps source to the dict of targets of its edges). -/
def edgeTargets (edges : List GraphEdge) (current : String) : Finset String :=
  ((edges.filter (fun e => e.source = current)).map (fun e => e.target)).toFinset

/-- Successor targets reachable from a node through at least one edge of
the given type (the edge-type filter of get_neighbors). -/
def edgeTargetsOfType (edges : List GraphEdge) (et : EdgeType)
    (current : String) : Finset String :=
  ((edges.filter (fun e => e.source = current ∧ e.type = et)).map
    (fun e => e.target)).toFinset

/-- One iteration of the get_neighbors loop body: every successor of a
frontier node enters the next frontier; it enters the accumulated
neighbour set when the optional edge-type filter admits it. -/
def neighborsStep (edges : List GraphEdge) (edge_type : Option EdgeType)
    (s : Finset String × Finset String) : Finset String × Finset String :=
  let newNeighbors := s.2.biUnion (fun current =>
    match edge_type with
    | none => edgeTargets edges current
    | some et => edgeTargetsOfType edges et current)
  let next_frontier := s.2.biUnion (fun current => edgeTargets edges current)
  (s.1 ∪ newNeighbors, next_frontier)

/-- SemanticMemory.get_neighbors in the adjacency-list (non-networkx)
branch: max_depth iterations of the loop, starting from an empty neighbour
set and the frontier containing only node_id; returns the neighbour set. -/
def SemanticMemory.get_neighbors (m : SemanticMemory) (node_id : String)
    (edge_type : Option EdgeType) (max_depth : Nat) : Finset String :=
  ((neighborsStep m.edges edge_type)^[max_depth] (∅, {node_id})).1

/-- Successors of a node in the mirrored networkx MultiDiGraph.  Modelled
from the networkx semantics the source calls into: MultiDiGraph.successors
raises NetworkXError when the node is not in the graph, otherwise yields
the distinct targets of its outgoing edges. -/
def nxSuccessors (m : SemanticMemory) (current : String) :
    Except String (List String) :=
  if current ∈ m.nxNodes then
    .ok (((m.edges.filter (fun e => e.source = current)).map
      (fun e => e.target)).dedup)
  else
    .error ("The node " ++ current ++ " is not in the digraph.")

/-- True when the networkx edge data between two nodes contains an edge of
the given type (the any(...) check over get_edge_data in get_neighbors). -/
def nxHasEdgeOfType (m : SemanticMemory) (current successor : String)
    (et : EdgeType) : Bool :=
  m.edges.any (fun e =>
    e.source = current ∧ e.target = successor ∧ e.type = et)

/-- Append an element to a duplicate-free list unless already present (a
Python set.add, with iteration order modelled as insertion order; the
claims settled over this model do not depend on iteration order). -/
def listInsert (l : List String) (x : String) : List String :=
  if x ∈ l then l else l ++ [x]

/-- Body of the inner loop of get_neighbors in the networkx branch,
processing one frontier node: graph.successors may raise for a node absent
from the graph; each successor is added to the next frontier, and to the
neighbour set when the filter admits it. -/
def nxStepNode (m : SemanticMemory) (edge_type : Option EdgeType)
    (acc : Finset String × List String) (current : String) :
    Except String (Finset String × List String) :=
  match nxSuccessors m current with
  | .error msg => .error msg
  | .ok succs => .ok (succs.foldl (fun a successor =>
      let keep := match edge_type with
        | none => true
        | some et => nxHasEdgeOfType m current successor et
      ((if keep then insert successor a.1 else a.1),
        listInsert a.2 successor)) acc)

/-- One depth iteration of get_neighbors in the networkx branch: process
every frontier node, collecting the next frontier set from scratch. -/
def nxStep (m : SemanticMemory) (edge_type : Option EdgeType)
    (s : Finset String × List String) :
    Except String (Finset String × List String) :=
  s.2.foldlM (nxStepNode m edge_type) (s.1, ([] : List String))

/-- SemanticMemory.get_neighbors in the networkx branch: identical loop
structure to the adjacency-list branch, but graph.successors raises on a
node that is not in the graph, so the whole call can raise. -/
def SemanticMemory.get_neighbors_nx (m : SemanticMemory) (node_id : String)
    (edge_type : Option EdgeType) (max_depth : Nat) :
    Except String (Finset String) := do
  let final ← (List.range max_depth).foldlM (fun s _ => nxStep m edge_type s)
    ((∅ : Finset String), [node_id])
  return final.1

/-- SemanticMemory.get_pagerank in the non-networkx fallback branch: for
every stored node, the number of distinct targets of its outgoing edges
(len of its _adjacency entry), returned as the importance score. -/
def SemanticMemory.get_pagerank_fallback (m : SemanticMemory) :
    List (String × ℚ) :=
  m.nodes.map (fun p =>
    (p.1, ((((m.edges.filter (fun e => e.source = p.1)).map
      (fun e => e.target)).toFinset.card : ℚ))))

/-- Weight of the networkx MultiDiGraph adjacency between two nodes.
Modelled from networkx semantics: add_edge keys parallel edges by the edge
type, so a repeated (source, target, type) triple overwrites the earlier
edge, and the adjacency weight is the sum over the surviving keys. -/
def nxEdgeWeight (edges : List GraphEdge) (u v : String) : ℚ :=
  (EdgeType.all.map (fun t =>
    match (edges.filter (fun e =>
        e.source = u ∧ e.target = v ∧ e.type = t)).getLast? with
    | some e => e.weight
    | none => 0)).sum

/-- Total outgoing weight of a node in the networkx graph. -/
def nxOutWeight (m : SemanticMemory) (u : String) : ℚ :=
  ∑ v ∈ m.nxNodes, nxEdgeWeight m.edges u v

/-- One power-iteration step of networkx pagerank as called by
SemanticMemory.get_pagerank: rows are normalised by outgoing weight,
dangling nodes (zero outgoing weight) distribute their mass uniformly over
all nodes, and the damping factor alpha mixes in the uniform vector. -/
def pagerankStep (m : SemanticMemory) (alpha : ℚ) (x : String → ℚ) :
    String → ℚ :=
  fun v =>
    let N : ℚ := (m.nxNodes.card : ℚ)
    let link := ∑ u ∈ m.nxNodes,
      (if nxOutWeight m u = 0 then 0
       else x u * nxEdgeWeight m.edges u v / nxOutWeight m u)
    let dangling := ∑ u ∈ m.nxNodes, (if nxOutWeight m u = 0 then x u else 0)
    alpha * (link + dangling * (1 / N)) + (1 - alpha) * (1 / N)

/-- Iterates of networkx pagerank from its uniform start vector; the value
returned by nx.pagerank is one of these iterates (whichever one first
meets the convergence test). -/
def SemanticMemory.pagerankIterate (m : SemanticMemory) (alpha : ℚ)
    (n : Nat) : String → ℚ :=
  (pagerankStep m alpha)^[n]
    (fun v => if v ∈ m.nxNodes then 1 / (m.nxNodes.card : ℚ) else 0)

/-- Retrieval methods (hybrid_retriever.py RetrievalMethod). -/
inductive RetrievalMethod where
  | vector
  | graph
  | keyword
  | hybrid
deriving DecidableEq

/-- Result of a retrieval operation (hybrid_retriever.py RetrievalResult).
Content and metadata dicts are association lists of Python values. -/
structure RetrievalResult where
  id : String
  content : List (String × PyVal)
  score : ℚ
  method : RetrievalMethod
  rank : Nat := 0
  metadata : List (String × PyVal) := []
deriving DecidableEq

/-- VectorStore.search of hybrid_retriever.py.  The hash-based embedding
and floating-point cosine similarity are abstracted into the similarity
function sim and the query embedding (the claims hold for every
similarity); everything from the similarity loop on follows the source:
filter by min_score, stable sort by descending similarity, truncate to
top_k, then assign ranks by enumerate(..., 1).  Python list.sort is
stable, modelled by insertion sort. -/
def VectorStore.search {α : Type} (sim : α → α → ℚ) (query_embedding : α)
    (embeddings : List (String × α)) (documents : List (String × List (String × PyVal)))
    (top_k : Nat) (min_score : ℚ) : List RetrievalResult :=
  if embeddings.isEmpty then []
  else
    let similarities := (embeddings.filter
        (fun p => min_score ≤ sim query_embedding p.2)).map
      (fun p => (p.1, sim query_embedding p.2))
    let sorted := List.insertionSort
      (fun a b : String × ℚ => b.2 ≤ a.2) similarities
    (List.enumFrom 1 (sorted.take top_k)).map (fun p =>
      { id := p.2.1
        content := ((dictGet documents p.2.1).getD [])
        score := p.2.2
        method := .vector
        rank := p.1
        metadata := [("similarity_metric", .str "cosine")] })

/-- Ranking stage of GraphRetriever.search (hybrid_retriever.py lines
226-247): relevant_nodes is the relevance map computed by
_find_relevant_nodes (abstracted as an input in first-insertion order);
nodes still present in the memory are kept, stably sorted by descending
relevance, truncated, and ranked by enumerate(..., 1). -/
def GraphRetriever.searchRank (m : SemanticMemory)
    (relevant_nodes : List (String × ℚ)) (top_k : Nat)
    (search_depth : Nat) (query_concepts : List String) :
    List RetrievalResult :=
  let scored_results := relevant_nodes.filterMap (fun p =>
    match dictGet m.nodes p.1 with
    | some node => some (p.1, node, p.2)
    | none => none)
  let sorted := List.insertionSort
    (fun a b : String × GraphNode × ℚ => b.2.2 ≤ a.2.2) scored_results
  (List.enumFrom 1 (sorted.take top_k)).map (fun p =>
    { id := p.2.1
      content := p.2.2.1.attributes
      score := p.2.2.2
      method := .graph
      rank := p.1
      metadata := [("search_depth", .num search_depth),
                   ("concepts_matched", .strList query_concepts)] })

/-- Accumulate into a Python defaultdict(float) modelled as an association
list: an existing key gets the value added in place, a missing key starts
from 0.0 and is appended. -/
def upsertAdd (scores : List (String × ℚ)) (k : String) (v : ℚ) :
    List (String × ℚ) :=
  match scores with
  | [] => [(k, v)]
  | (k0, v0) :: rest =>
      if k0 = k then (k0, v0 + v) :: rest else (k0, v0) :: upsertAdd rest k v

/-- HybridRetriever._reciprocal_rank_fusion: every vector result adds
vector_weight / (rrf_k + rank) for its id, then every graph result adds
graph_weight / (rrf_k + rank); the returned dict keeps first-insertion
order. -/
def HybridRetriever.reciprocal_rank_fusion
    (vector_results graph_results : List RetrievalResult)
    (vector_weight graph_weight : ℚ) (rrf_k : ℚ) : List (String × ℚ) :=
  let scores := vector_results.foldl (fun acc result =>
    upsertAdd acc result.id (vector_weight / (rrf_k + result.rank))) []
  graph_results.foldl (fun acc result =>
    upsertAdd acc result.id (graph_weight / (rrf_k + result.rank))) scores

/-- Loop body of the final loop of HybridRetriever.search, for one ranked
fused candidate (rank, (doc_id, rrf_score)): attach content from the
vector list when truthy, else from the graph list, collect the metadata
exactly as the source does, and silently drop the candidate when its
content ends up falsy (None or an empty dict). -/
def HybridRetriever.assemble (vector_results graph_results : List RetrievalResult)
    (p : ℕ × String × ℚ) : Option RetrievalResult :=
  let doc_id := p.2.1
  let rrf_score := p.2.2
  let fromVector := vector_results.find? (fun r => r.id = doc_id)
  let content0 : Option (List (String × PyVal)) :=
    match fromVector with
    | some r => some r.content
    | none => none
  let metadata0 : List (String × PyVal) :=
    match fromVector with
    | some r => [("rrf_score", .num rrf_score), ("vector_score", .num r.score),
                 ("vector_rank", .num r.rank)]
    | none => [("rrf_score", .num rrf_score)]
  let step2 : Option (List (String × PyVal)) × List (String × PyVal) :=
    if content0 = none ∨ content0 = some [] then
      match graph_results.find? (fun r => r.id = doc_id) with
      | some r => (some r.content,
          metadata0 ++ [("graph_score", .num r.score), ("graph_rank", .num r.rank)])
      | none => (content0, metadata0)
    else (content0, metadata0)
  match step2.1 with
  | some c =>
      if c = [] then none
      else some
        { id := doc_id
          content := c
          score := rrf_score
          method := .hybrid
          rank := p.1
          metadata := step2.2 }
  | none => none

/-- HybridRetriever.search from the point where both source result lists
are available (the two recursive searches with top_k * 2 are the inputs):
fuse by RRF, stably sort the fused dict items by descending score,
truncate to top_k, then run the assemble loop with ranks from
enumerate(..., 1). -/
def HybridRetriever.search (vector_results graph_results : List RetrievalResult)
    (vector_weight graph_weight rrf_k : ℚ) (top_k : Nat) :
    List RetrievalResult :=
  let rrf_scores := HybridRetriever.reciprocal_rank_fusion
    vector_results graph_results vector_weight graph_weight rrf_k
  let sorted_results := List.insertionSort
    (fun a b : String × ℚ => b.2 ≤ a.2) rrf_scores
  (List.enumFrom 1 (sorted_results.take top_k)).filterMap
    (HybridRetriever.assemble vector_results graph_results)

/-- Substring containment test (the Python in operator on strings). -/
def strContains (s sub : String) : Bool := decide (sub.data <:+: s.data)

/-- Containment of any keyword of a list (any(kw in s for kw in kws)). -/
def containsAny (s : String) (kws : List String) : Bool :=
  kws.any (fun kw => strContains s kw)

/-- Conversion RetrievalMethod(hint) by enum value; none models the
ValueError raised on an unknown value. -/
def methodOfString : String → Option RetrievalMethod
  | "vector" => some .vector
  | "graph" => some .graph
  | "keyword" => some .keyword
  | "hybrid" => some .hybrid
  | _ => none

/-- Decision dict returned by AgenticRAG._decide_method; weight fields are
present only for hybrid decisions, as in the source. -/
structure Classification where
  method : RetrievalMethod
  reasoning : String
  vector_weight : Option ℚ := none
  graph_weight : Option ℚ := none
  confidence : ℚ
deriving DecidableEq

/-- Keyword classification of AgenticRAG._decide_method after the hint
check: case-insensitive substring rules, first match wins, ending at the
balanced hybrid default. -/
def AgenticRAG.classifyQuery (query : String) : Classification :=
  let query_lower := pyLower query
  if containsAny query_lower ["cite", "citation", "reference", "related to"] then
    { method := .graph,
      reasoning := "Query asks for citation relationships",
      confidence := 4/5 }
  else if strContains query_lower "arxiv" || strContains query_lower "paper:" then
    { method := .vector,
      reasoning := "Query targets specific papers",
      confidence := 9/10 }
  else if containsAny query_lower ["vs", "versus", "compare", "difference"] then
    { method := .hybrid,
      reasoning := "Comparative query benefits from both methods",
      vector_weight := some (1/2), graph_weight := some (1/2),
      confidence := 7/10 }
  else if containsAny query_lower
      ["overview", "survey", "state of the art", "recent advances"] then
    { method := .hybrid,
      reasoning := "Exploratory query needs breadth and depth",
      vector_weight := some (2/5), graph_weight := some (3/5),
      confidence := 3/4 }
  else
    { method := .hybrid,
      reasoning := "Default: use hybrid for comprehensive results",
      vector_weight := some (1/2), graph_weight := some (1/2),
      confidence := 1/2 }

/-- AgenticRAG._decide_method: a truthy hint is converted with
RetrievalMethod(hint) (ValueError on an unknown value, modelled as error)
and honoured with confidence 1.0; a falsy or missing hint falls through to
the keyword classification, which never raises. -/
def AgenticRAG.decide_method (query : String) (hint : Option String) :
    Except String Classification :=
  match hint with
  | some h =>
      if h = "" then .ok (AgenticRAG.classifyQuery query)
      else
        match methodOfString h with
        | some m =>
            .ok { method := m
                  reasoning := "User specified method: " ++ h
                  confidence := 1 }
        | none => .error (h ++ " is not a valid RetrievalMethod")
  | none => .ok (AgenticRAG.classifyQuery query)

/-- Document of tools/vector_store.py. -/
structure Document where
  id : String
  content : String
  metadata : List (String × PyVal) := []
  embedding : Option (List ℚ) := none
deriving DecidableEq

/-- Search result of tools/vector_store.py, carrying the matched document
unchanged together with a score. -/
structure SearchResult where
  document : Document
  score : ℚ := 1
  distance : ℚ := 0
deriving DecidableEq

/-- Python str.lower().split(): lowercase, split on whitespace runs,
discard empty chunks. -/
def pyLowerSplit (s : String) : List String :=
  (((pyLower s).data.splitOnP Char.isWhitespace).filter
    (fun l => ¬l.isEmpty)).map (fun l => String.mk l)

/-- VectorStore._memory_search of tools/vector_store.py (the search path
when no ChromaDB embedding capability is configured): every stored
document whose token set overlaps the query token set is scored
overlap / max(|query_tokens|, 1), results are stably sorted by descending
score and truncated; the SearchResult wraps the stored document as is,
with the default distance and without touching its metadata. -/
def VectorStore.memory_search (memory_store : List (String × Document))
    (query : String) (n_results : Nat) : List SearchResult :=
  let query_words := (pyLowerSplit query).toFinset
  let results := memory_store.filterMap (fun p =>
    let doc_words := (pyLowerSplit p.2.content).toFinset
    let overlap := (query_words ∩ doc_words).card
    if 0 < overlap then
      some { document := p.2,
             score := (overlap : ℚ) / ((max query_words.card 1 : ℕ) : ℚ) }
    else none)
  let sorted := List.insertionSort
    (fun a b : SearchResult => b.score ≤ a.score) results
  sorted.take n_results

/-- Number of entries of an association list carrying a given key. -/
def countKey {β : Type} (l : List (String × β)) (k : String) : Nat :=
  (l.filter (fun p => p.1 = k)).length

/-- Keys of an association list are pairwise distinct (the invariant every
Python dict satisfies by construction). -/
def keysNodup {β : Type} (l : List (String × β)) : Prop :=
  (l.map Prod.fst).Nodup

lemma dictGet_dictInsert_self {β : Type} (l : List (String × β)) (k : String)
    (v : β) : dictGet (dictInsert l k v) k = some v := by
  induction l with
  | nil => simp [dictInsert, dictGet]
  | cons p rest ih =>
      obtain ⟨k0, v0⟩ := p
      by_cases h : k0 = k
      · simp [dictInsert, h, dictGet]
      · simp [dictInsert, h, dictGet, ih]

lemma dictGet_dictInsert_ne {β : Type} (l : List (String × β)) (k : String)
    (v : β) (k0 : String) (h : k0 ≠ k) :
    dictGet (dictInsert l k v) k0 = dictGet l k0 := by
  induction l with
  | nil => simp [dictInsert, dictGet, Ne.symm h]
  | cons p rest ih =>
      obtain ⟨k1, v1⟩ := p
      by_cases h1 : k1 = k
      · subst h1
        simp [dictInsert, dictGet, Ne.symm h]
      · simp only [dictInsert, if_neg h1, dictGet]
        by_cases h2 : k1 = k0
        · simp [h2]
        · simp [h2, ih]

lemma mem_keys_dictInsert {β : Type} (l : List (String × β)) (k : String)
    (v : β) (x : String) :
    x ∈ (dictInsert l k v).map Prod.fst ↔ x = k ∨ x ∈ l.map Prod.fst := by
  induction l with
  | nil => simp [dictInsert]
  | cons p rest ih =>
      obtain ⟨k1, v1⟩ := p
      by_cases h1 : k1 = k
      · subst h1
        simp [dictInsert]
      · simp only [dictInsert, if_neg h1, List.map_cons, List.mem_cons, ih]
        tauto

lemma keysNodup_dictInsert {β : Type} (l : List (String × β)) (k : String)
    (v : β) (h : keysNodup l) : keysNodup (dictInsert l k v) := by
  induction l with
  | nil => simp [dictInsert, keysNodup]
  | cons p rest ih =>
      obtain ⟨k1, v1⟩ := p
      rw [keysNodup, List.map_cons, List.nodup_cons] at h
      by_cases h1 : k1 = k
      · subst h1
        rw [keysNodup, dictInsert, if_pos rfl, List.map_cons, List.nodup_cons]
        exact h
      · rw [keysNodup, dictInsert, if_neg h1, List.map_cons, List.nodup_cons]
        refine ⟨?_, ih h.2⟩
        rw [mem_keys_dictInsert]
        rintro (h2 | h2)
        · exact h1 h2
        · exact h.1 h2

lemma countKey_cons {β : Type} (p : String × β) (rest : List (String × β))
    (k : String) :
    countKey (p :: rest) k =
      (if p.1 = k then 1 else 0) + countKey rest k := by
  by_cases h : p.1 = k <;>
    simp [countKey, List.filter_cons, h, Nat.add_comm]

lemma countKey_zero_of_not_mem {β : Type} (l : List (String × β)) (k : String)
    (h : k ∉ l.map Prod.fst) : countKey l k = 0 := by
  induction l with
  | nil => simp [countKey]
  | cons p rest ih =>
      simp only [List.map_cons, List.mem_cons, not_or] at h
      rw [countKey_cons, if_neg (fun hp => h.1 hp.symm), ih h.2]

lemma countKey_dictInsert_self {β : Type} (l : List (String × β)) (k : String)
    (v : β) (h : keysNodup l) : countKey (dictInsert l k v) k = 1 := by
  induction l with
  | nil => simp [dictInsert, countKey]
  | cons p rest ih =>
      obtain ⟨k1, v1⟩ := p
      rw [keysNodup, List.map_cons, List.nodup_cons] at h
      by_cases h1 : k1 = k
      · subst h1
        rw [dictInsert, if_pos rfl, countKey_cons, if_pos rfl,
          countKey_zero_of_not_mem rest k1 h.1]
      · rw [dictInsert, if_neg h1, countKey_cons, if_neg h1, ih h.2]

lemma countKey_dictInsert_ne {β : Type} (l : List (String × β)) (k : String)
    (v : β) (k0 : String) (h : k0 ≠ k) :
    countKey (dictInsert l k v) k0 = countKey l k0 := by
  induction l with
  | nil => simp [dictInsert, countKey, List.filter_cons, Ne.symm h]
  | cons p rest ih =>
      obtain ⟨k1, v1⟩ := p
      by_cases h1 : k1 = k
      · subst h1
        rw [dictInsert, if_pos rfl, countKey_cons, countKey_cons]
      · rw [dictInsert, if_neg h1, countKey_cons, countKey_cons, ih]

lemma append_ne_of_ne_head (a b : String) (ca cb : Char) (hne : ca ≠ cb)
    (ha : a.data.headI = ca) (hb : b.data.headI = cb) (hna : a.data ≠ [])
    (hnb : b.data ≠ []) (s t : String) : a ++ s ≠ b ++ t := by
  intro h
  have h2 : (a ++ s).data.headI = (b ++ t).data.headI := by rw [h]
  rw [String.data_append, String.data_append] at h2
  cases hd : a.data with
  | nil => exact hna hd
  | cons c cs =>
      cases he : b.data with
      | nil => exact hnb he
      | cons d ds =>
          rw [hd, he] at h2
          rw [hd] at ha
          rw [he] at hb
          simp only [List.cons_append, List.headI] at h2 ha hb
          rw [ha, hb] at h2
          exact hne h2

lemma authorId_ne_paperId (author s : String) :
    authorIdOf author ≠ "paper_" ++ s :=
  append_ne_of_ne_head "author_" "paper_" 'a' 'p' (by decide) rfl rfl
    (by decide) (by decide) _ s

lemma conceptId_ne_paperId (concept s : String) :
    conceptIdOf concept ≠ "paper_" ++ s :=
  append_ne_of_ne_head "concept_" "paper_" 'c' 'p' (by decide) rfl rfl
    (by decide) (by decide) _ s

lemma foldl_preserves {β : Type} (P : SemanticMemory → Prop)
    (f : SemanticMemory → β → SemanticMemory)
    (hf : ∀ m b, P m → P (f m b)) :
    ∀ (l : List β) (m : SemanticMemory), P m → P (l.foldl f m) := by
  intro l
  induction l with
  | nil => intro m hm; exact hm
  | cons b rest ih => intro m hm; exact ih (f m b) (hf m b hm)

/-- C1 (counterexample): add_edge performs no endpoint check at all: on an
empty store it inserts an edge between two ids that name no node, returns
successfully, and both endpoints are absent from the node store, so the
edge dangles and no InvalidReference error is raised. -/
theorem add_edge_dangling_inserted :
    ((emptyMemory.add_edge
        { source := "a", target := "b", type := .cites }).edges =
      [{ source := "a", target := "b", type := .cites }]) ∧
    dictGet (emptyMemory.add_edge
        { source := "a", target := "b", type := .cites }).nodes "a" = none ∧
    dictGet (emptyMemory.add_edge
        { source := "a", target := "b", type := .cites }).nodes "b" = none :=
  ⟨rfl, rfl, rfl⟩

/-- C1 (amended): add_edge always succeeds, appending the edge to the edge
list unconditionally and never touching the node store, regardless of
whether the endpoints name existing nodes; there is no failure path. -/
theorem add_edge_appends_unconditionally (m : SemanticMemory) (e : GraphEdge) :
    (m.add_edge e).edges = m.edges ++ [e] ∧ (m.add_edge e).nodes = m.nodes :=
  ⟨rfl, rfl⟩

/-- C4: on an unknown node id the two branches of get_neighbors disagree:
the networkx branch raises (graph.successors raises NetworkXError on a
node that is not in the graph) while the adjacency-list fallback branch
returns the empty set as the spec demands. -/
theorem get_neighbors_unknown_node_divergence :
    (emptyMemory.get_neighbors_nx "paper_does_not_exist" none 2).isOk = false ∧
    emptyMemory.get_neighbors "paper_does_not_exist" none 2 = ∅ := by
  constructor
  · decide
  · decide

/-- C9: depth monotonicity of get_neighbors: the neighbour set after d
iterations is contained in the neighbour set after d + 1 iterations, for
every store, start node, optional edge-kind filter and depth. -/
theorem get_neighbors_depth_monotone (m : SemanticMemory) (node_id : String)
    (edge_type : Option EdgeType) (d : Nat) :
    m.get_neighbors node_id edge_type d ⊆
      m.get_neighbors node_id edge_type (d + 1) := by
  unfold SemanticMemory.get_neighbors
  rw [Function.iterate_succ_apply']
  intro x hx
  exact Finset.mem_union.2 (Or.inl hx)

/-- C10: a paper payload with neither a non-empty arxiv_id field nor a
non-empty id field makes add_paper return the empty string with the store
completely unchanged. -/
theorem add_paper_missing_id_skipped (m : SemanticMemory) (p : PaperData)
    (h1 : p.arxiv_id = none ∨ p.arxiv_id = some "")
    (h2 : p.pid = none ∨ p.pid = some "") :
    m.add_paper p = ("", m) := by
  rcases h1 with h1 | h1 <;> rcases h2 with h2 | h2 <;>
    simp [SemanticMemory.add_paper, h1, h2]

/-- C10 (witness): the skip branch evaluated on the default payload and the
empty store. -/
theorem add_paper_missing_id_skipped_witness :
    (({} : PaperData).arxiv_id = none ∨ ({} : PaperData).arxiv_id = some "") ∧
    (({} : PaperData).pid = none ∨ ({} : PaperData).pid = some "") ∧
    emptyMemory.add_paper {} = ("", emptyMemory) :=
  ⟨Or.inl rfl, Or.inl rfl,
    add_paper_missing_id_skipped emptyMemory {} (Or.inl rfl) (Or.inl rfl)⟩

/-- C8 (counterexample): add_node replaces the stored node wholesale, so
re-adding an existing id with a different kind changes the kind: id x is
created as author, re-added as concept, and the store then holds the
concept node even though concept and author differ. -/
theorem add_node_overwrites_kind :
    dictGet (((emptyMemory.add_node { id := "x", type := .author }).add_node
        { id := "x", type := .concept }).nodes) "x" =
      some { id := "x", type := .concept } ∧
    NodeType.concept ≠ NodeType.author := by
  exact ⟨rfl, by decide⟩

lemma add_paper_nodes_invariant (m : SemanticMemory) (p : PaperData)
    (hkey : p.arxiv_id.getD (p.pid.getD "") ≠ "")
    (h : keysNodup m.nodes) :
    (m.add_paper p).1 = "paper_" ++ p.arxiv_id.getD (p.pid.getD "") ∧
    dictGet (m.add_paper p).2.nodes
        ("paper_" ++ p.arxiv_id.getD (p.pid.getD "")) =
      some (paperNodeOf p (p.arxiv_id.getD (p.pid.getD ""))) ∧
    countKey (m.add_paper p).2.nodes
        ("paper_" ++ p.arxiv_id.getD (p.pid.getD "")) = 1 ∧
    keysNodup (m.add_paper p).2.nodes := by
  set key := p.arxiv_id.getD (p.pid.getD "") with hkeydef
  set pk := "paper_" ++ key with hpkdef
  set pn := paperNodeOf p key with hpndef
  have hQstep : ∀ (mm : SemanticMemory),
      (dictGet mm.nodes pk = some pn ∧ countKey mm.nodes pk = 1 ∧
        keysNodup mm.nodes) →
      ∀ (nid : String) (hne : nid ≠ pk) (gn : GraphNode) (hid : gn.id = nid)
        (e : GraphEdge),
      (dictGet ((mm.add_node gn).add_edge e).nodes pk = some pn ∧
        countKey ((mm.add_node gn).add_edge e).nodes pk = 1 ∧
        keysNodup ((mm.add_node gn).add_edge e).nodes) := by
    rintro mm ⟨h1, h2, h3⟩ nid hne gn hid e
    have hnodes : ((mm.add_node gn).add_edge e).nodes =
        dictInsert mm.nodes gn.id gn := rfl
    rw [hnodes, hid]
    refine ⟨?_, ?_, ?_⟩
    · rw [dictGet_dictInsert_ne mm.nodes nid gn pk (Ne.symm hne), h1]
    · rw [countKey_dictInsert_ne mm.nodes nid gn pk (Ne.symm hne), h2]
    · exact keysNodup_dictInsert mm.nodes nid gn h3
  have hstart : dictGet (m.add_node pn).nodes pk = some pn ∧
      countKey (m.add_node pn).nodes pk = 1 ∧
      keysNodup (m.add_node pn).nodes := by
    have hpnid : pn.id = pk := rfl
    refine ⟨?_, ?_, ?_⟩
    · show dictGet (dictInsert m.nodes pn.id pn) pk = some pn
      rw [hpnid]
      exact dictGet_dictInsert_self m.nodes pk pn
    · show countKey (dictInsert m.nodes pn.id pn) pk = 1
      rw [hpnid]
      exact countKey_dictInsert_self m.nodes pk pn h
    · exact keysNodup_dictInsert m.nodes pn.id pn h
  have hfold1 := foldl_preserves
    (fun mm => dictGet mm.nodes pk = some pn ∧ countKey mm.nodes pk = 1 ∧
      keysNodup mm.nodes)
    (fun acc author =>
      (acc.add_node
        { id := authorIdOf author, type := NodeType.author,
          attributes := [("name", .str author)] }).add_edge
        { source := pn.id, target := authorIdOf author,
          type := EdgeType.authored_by, weight := 1 })
    (fun mm author hmm => hQstep mm hmm (authorIdOf author)
      (fun hcontra => (authorId_ne_paperId author key) hcontra) _ rfl _)
    p.authors (m.add_node pn) hstart
  have hfold2 := foldl_preserves
    (fun mm => dictGet mm.nodes pk = some pn ∧ countKey mm.nodes pk = 1 ∧
      keysNodup mm.nodes)
    (fun acc concept =>
      (acc.add_node
        { id := conceptIdOf concept, type := NodeType.concept,
          attributes := [("name", .str concept)] }).add_edge
        { source := pn.id, target := conceptIdOf concept,
          type := EdgeType.introduces,
          attributes := [("context", .str "paper discusses concept")],
          weight := 1 })
    (fun mm concept hmm => hQstep mm hmm (conceptIdOf concept)
      (fun hcontra => (conceptId_ne_paperId concept key) hcontra) _ rfl _)
    p.key_concepts _ hfold1
  refine ⟨?_, ?_⟩
  · show (m.add_paper p).1 = pk
    simp only [SemanticMemory.add_paper, ← hkeydef, if_neg hkey]
    rfl
  · show dictGet (m.add_paper p).2.nodes pk = some pn ∧
      countKey (m.add_paper p).2.nodes pk = 1 ∧
      keysNodup (m.add_paper p).2.nodes
    simp only [SemanticMemory.add_paper, ← hkeydef, if_neg hkey]
    exact hfold2

/-- C8 (amended): add_node upserts by id but replaces the stored node
wholesale, so attributes and kind both take the values of the most recent
call; after the call exactly one node of that id is stored.  Consequently
ingesting the same paper payload twice leaves exactly one paper node
under that id, holding the node built from the most recent ingest. -/
theorem add_node_last_write_wins (m : SemanticMemory) (n : GraphNode)
    (p : PaperData) (h : keysNodup m.nodes) :
    (dictGet (m.add_node n).nodes n.id = some n ∧
      countKey (m.add_node n).nodes n.id = 1 ∧
      keysNodup (m.add_node n).nodes) ∧
    (p.arxiv_id.getD (p.pid.getD "") ≠ "" →
      ((m.add_paper p).2.add_paper p).1 =
        "paper_" ++ p.arxiv_id.getD (p.pid.getD "") ∧
      dictGet ((m.add_paper p).2.add_paper p).2.nodes
          ("paper_" ++ p.arxiv_id.getD (p.pid.getD "")) =
        some (paperNodeOf p (p.arxiv_id.getD (p.pid.getD ""))) ∧
      countKey ((m.add_paper p).2.add_paper p).2.nodes
          ("paper_" ++ p.arxiv_id.getD (p.pid.getD "")) = 1) := by
  constructor
  · refine ⟨?_, ?_, ?_⟩
    · exact dictGet_dictInsert_self m.nodes n.id n
    · exact countKey_dictInsert_self m.nodes n.id n h
    · exact keysNodup_dictInsert m.nodes n.id n h
  · intro hkey
    have h1 := add_paper_nodes_invariant m p hkey h
    have h2 := add_paper_nodes_invariant (m.add_paper p).2 p hkey h1.2.2.2
    exact ⟨h2.1, h2.2.1, h2.2.2.1⟩

/-- C8 (witness): the upsert behaviour evaluated on the empty store with a
concrete node and a concrete paper payload. -/
theorem add_node_last_write_wins_witness :
    keysNodup emptyMemory.nodes ∧
    ((dictGet (emptyMemory.add_node { id := "x", type := .concept }).nodes
        "x" = some { id := "x", type := .concept } ∧
      countKey (emptyMemory.add_node
        { id := "x", type := .concept }).nodes "x" = 1 ∧
      keysNodup (emptyMemory.add_node { id := "x", type := .concept }).nodes) ∧
    (({ arxiv_id := some "2601.1" } : PaperData).arxiv_id.getD
        ((({ arxiv_id := some "2601.1" } : PaperData)).pid.getD "") ≠ "" →
      ((emptyMemory.add_paper { arxiv_id := some "2601.1" }).2.add_paper
          { arxiv_id := some "2601.1" }).1 = "paper_" ++ "2601.1" ∧
      dictGet ((emptyMemory.add_paper
          { arxiv_id := some "2601.1" }).2.add_paper
          { arxiv_id := some "2601.1" }).2.nodes ("paper_" ++ "2601.1") =
        some (paperNodeOf { arxiv_id := some "2601.1" } "2601.1") ∧
      countKey ((emptyMemory.add_paper
          { arxiv_id := some "2601.1" }).2.add_paper
          { arxiv_id := some "2601.1" }).2.nodes ("paper_" ++ "2601.1") = 1)) :=
  ⟨by simp [keysNodup, emptyMemory], add_node_last_write_wins emptyMemory
    { id := "x", type := .concept } { arxiv_id := some "2601.1" }
    (by simp [keysNodup, emptyMemory])⟩

/-- C7 (counterexample): the non-networkx fallback of get_pagerank returns
out-degree counts, not a distribution: on the non-empty graph with a
single node and no edges the scores sum to 0, not 1. -/
theorem get_pagerank_fallback_not_conserved :
    ((emptyMemory.add_node
        { id := "a", type := .concept }).get_pagerank_fallback).map Prod.snd =
      [0] ∧ ([0] : List ℚ).sum ≠ 1 := by
  constructor
  · rfl
  · norm_num

lemma pagerankStep_sum (m : SemanticMemory) (alpha : ℚ) (x : String → ℚ)
    (hne : m.nxNodes.Nonempty) (hx : ∑ v ∈ m.nxNodes, x v = 1) :
    ∑ v ∈ m.nxNodes, pagerankStep m alpha x v = 1 := by
  classical
  have hN : ((m.nxNodes.card : ℚ)) ≠ 0 := by
    exact_mod_cast Finset.card_ne_zero.mpr hne
  have hconst : ∑ _v ∈ m.nxNodes, (1 : ℚ) / (m.nxNodes.card : ℚ) = 1 := by
    rw [Finset.sum_const, nsmul_eq_mul]
    field_simp
  have hlink : ∑ v ∈ m.nxNodes, (∑ u ∈ m.nxNodes,
      (if nxOutWeight m u = 0 then 0
       else x u * nxEdgeWeight m.edges u v / nxOutWeight m u)) =
      ∑ u ∈ m.nxNodes, (if nxOutWeight m u = 0 then 0 else x u) := by
    rw [Finset.sum_comm]
    refine Finset.sum_congr rfl (fun u _hu => ?_)
    by_cases h0 : nxOutWeight m u = 0
    · simp [h0]
    · simp only [if_neg h0]
      have hfac : ∑ v ∈ m.nxNodes,
          x u * nxEdgeWeight m.edges u v / nxOutWeight m u =
          (x u / nxOutWeight m u) * ∑ v ∈ m.nxNodes, nxEdgeWeight m.edges u v := by
        rw [Finset.mul_sum]
        refine Finset.sum_congr rfl (fun v _hv => ?_)
        ring
      rw [hfac]
      rw [show ∑ v ∈ m.nxNodes, nxEdgeWeight m.edges u v = nxOutWeight m u
        from rfl]
      field_simp
  have hpieces : ∑ u ∈ m.nxNodes, (if nxOutWeight m u = 0 then 0 else x u) +
      ∑ u ∈ m.nxNodes, (if nxOutWeight m u = 0 then x u else 0) = 1 := by
    rw [← Finset.sum_add_distrib, ← hx]
    refine Finset.sum_congr rfl (fun u _hu => ?_)
    by_cases h0 : nxOutWeight m u = 0 <;> simp [h0]
  simp only [pagerankStep]
  rw [Finset.sum_add_distrib, ← Finset.mul_sum, Finset.sum_add_distrib,
    hlink, Finset.sum_const, Finset.sum_const, nsmul_eq_mul, nsmul_eq_mul]
  have hDN : ((m.nxNodes.card : ℚ)) *
      ((∑ u ∈ m.nxNodes, (if nxOutWeight m u = 0 then x u else 0)) *
        (1 / (m.nxNodes.card : ℚ))) =
      ∑ u ∈ m.nxNodes, (if nxOutWeight m u = 0 then x u else 0) := by
    field_simp
  rw [hDN]
  rw [hpieces]
  field_simp

/-- C7 (amended): the networkx branch of get_pagerank (modelled power
iteration with row normalisation, uniform dangling-node redistribution and
damping alpha) keeps the total mass at exactly 1 at every iterate for
every non-empty graph, so the returned scores sum to 1; the non-networkx
fallback instead returns out-degree counts, which need not sum to 1. -/
theorem pagerank_iterates_sum_one (m : SemanticMemory) (alpha : ℚ) (n : Nat)
    (hne : m.nxNodes.Nonempty) :
    ∑ v ∈ m.nxNodes, m.pagerankIterate alpha n v = 1 := by
  induction n with
  | zero =>
      simp only [SemanticMemory.pagerankIterate, Function.iterate_zero, id]
      have hN : ((m.nxNodes.card : ℚ)) ≠ 0 := by
        exact_mod_cast Finset.card_ne_zero.mpr hne
      rw [Finset.sum_congr rfl (fun v hv => if_pos hv), Finset.sum_const,
        nsmul_eq_mul]
      field_simp
  | succ k ih =>
      simp only [SemanticMemory.pagerankIterate, Function.iterate_succ_apply']
        at ih ⊢
      exact pagerankStep_sum m alpha _ hne ih

/-- C7 (witness): the iteration evaluated on a concrete one-node graph with
the default damping factor. -/
theorem pagerank_iterates_sum_one_witness :
    (emptyMemory.add_node { id := "a", type := .concept }).nxNodes.Nonempty ∧
    ∑ v ∈ (emptyMemory.add_node
        { id := "a", type := .concept }).nxNodes,
      (emptyMemory.add_node
        { id := "a", type := .concept }).pagerankIterate (17/20) 1 v = 1 :=
  ⟨⟨"a", by decide⟩,
    pagerank_iterates_sum_one (emptyMemory.add_node
      { id := "a", type := .concept }) (17/20) 1 ⟨"a", by decide⟩⟩

/-- Rank of an id in a result list as the claim reads it: the 1-based
position of the first result carrying the id. -/
def rankOfId (rs : List RetrievalResult) (id0 : String) : Option Nat :=
  match rs with
  | [] => none
  | r :: rest =>
      if r.id = id0 then some 1 else (rankOfId rest id0).map (· + 1)

/-- Contribution of one source list to the fused score of an id, written
as the claim states it: weight / (k + rank in that list), or 0 when the
id is absent from the list. -/
def rrfContribution (rs : List RetrievalResult) (w k : ℚ) (id0 : String) : ℚ :=
  match rankOfId rs id0 with
  | some rk => w / (k + (rk : ℚ))
  | none => 0

/-- Ids of a result list are pairwise distinct (true of every list the
searches produce, since both stores key documents by id). -/
def idsNodup (rs : List RetrievalResult) : Prop :=
  (rs.map (fun r => r.id)).Nodup

/-- Rank fields of a result list are exactly the 1-based positions (what
the enumerate(..., 1) loops of the searches produce). -/
def ranksPositional (rs : List RetrievalResult) : Prop :=
  rs.map (fun r => r.rank) = List.range' 1 rs.length

lemma upsertAdd_dictGet_self (l : List (String × ℚ)) (k : String) (v : ℚ) :
    dictGet (upsertAdd l k v) k = some ((dictGet l k).getD 0 + v) := by
  induction l with
  | nil => simp [upsertAdd, dictGet]
  | cons p rest ih =>
      obtain ⟨k0, v0⟩ := p
      by_cases h : k0 = k
      · simp [upsertAdd, h, dictGet]
      · simp [upsertAdd, h, dictGet, ih]

lemma upsertAdd_dictGet_ne (l : List (String × ℚ)) (k : String) (v : ℚ)
    (k0 : String) (h : k0 ≠ k) :
    dictGet (upsertAdd l k v) k0 = dictGet l k0 := by
  induction l with
  | nil => simp [upsertAdd, dictGet, Ne.symm h]
  | cons p rest ih =>
      obtain ⟨k1, v1⟩ := p
      by_cases h1 : k1 = k
      · subst h1
        simp [upsertAdd, dictGet, Ne.symm h]
      · simp only [upsertAdd, if_neg h1, dictGet]
        by_cases h2 : k1 = k0
        · simp [h2]
        · simp [h2, ih]

lemma foldl_upsert_dictGet_notmem (rs : List RetrievalResult) (w k : ℚ)
    (acc : List (String × ℚ)) (id0 : String)
    (h : ∀ r ∈ rs, r.id ≠ id0) :
    dictGet (rs.foldl (fun a r =>
      upsertAdd a r.id (w / (k + (r.rank : ℚ)))) acc) id0 = dictGet acc id0 := by
  induction rs generalizing acc with
  | nil => rfl
  | cons r rest ih =>
      rw [List.foldl_cons, ih _ (fun r2 h2 => h r2 (List.mem_cons_of_mem r h2)),
        upsertAdd_dictGet_ne _ _ _ _ (Ne.symm (h r (List.mem_cons_self r rest)))]

lemma foldl_upsert_dictGet (rs : List RetrievalResult) (w k : ℚ)
    (acc : List (String × ℚ)) (id0 : String) (off : Nat)
    (hpos : rs.map (fun r => r.rank) = List.range' (off + 1) rs.length)
    (hnd : (rs.map (fun r => r.id)).Nodup) :
    dictGet (rs.foldl (fun a r =>
        upsertAdd a r.id (w / (k + (r.rank : ℚ)))) acc) id0 =
      match rankOfId rs id0 with
      | some i => some ((dictGet acc id0).getD 0 + w / (k + ((off + i : Nat) : ℚ)))
      | none => dictGet acc id0 := by
  induction rs generalizing acc off with
  | nil => rfl
  | cons r rest ih =>
      simp only [List.map_cons, List.length_cons, List.range'_succ] at hpos
      have hrank : r.rank = off + 1 := (List.cons.injEq _ _ _ _).mp hpos |>.1
      have hrest : rest.map (fun r => r.rank) =
          List.range' (off + 1 + 1) rest.length :=
        (List.cons.injEq _ _ _ _).mp hpos |>.2
      simp only [List.map_cons, List.nodup_cons] at hnd
      rw [List.foldl_cons]
      by_cases hid : r.id = id0
      · subst hid
        have hnot : ∀ r2 ∈ rest, r2.id ≠ r.id := by
          intro r2 h2 hcontra
          exact hnd.1 (hcontra ▸ List.mem_map_of_mem (fun r => r.id) h2)
        rw [foldl_upsert_dictGet_notmem rest w k _ r.id hnot,
          upsertAdd_dictGet_self, hrank]
        simp [rankOfId]
      · rw [ih _ (off + 1) hrest hnd.2,
          upsertAdd_dictGet_ne _ _ _ _ (fun hcontra => hid hcontra.symm)]
        simp only [rankOfId, if_neg hid]
        cases hr : rankOfId rest id0 with
        | none => simp
        | some i =>
            have harith : off + 1 + i = off + (i + 1) := by omega
            simp [harith]

/-- C5: the reciprocal-rank-fusion step assigns to every id present in
either ranked input list the score sum of weight / (k_constant + rank)
over the lists containing it (rank being the 1-based position in that
list), and assigns nothing to ids outside both lists; hypotheses state
that the inputs are genuine ranked lists (distinct ids, rank fields equal
to 1-based positions), which is what both searches produce. -/
theorem reciprocal_rank_fusion_formula
    (vector_results graph_results : List RetrievalResult)
    (vector_weight graph_weight rrf_k : ℚ) (id0 : String)
    (hv1 : ranksPositional vector_results) (hv2 : idsNodup vector_results)
    (hg1 : ranksPositional graph_results) (hg2 : idsNodup graph_results) :
    dictGet (HybridRetriever.reciprocal_rank_fusion vector_results
        graph_results vector_weight graph_weight rrf_k) id0 =
      if rankOfId vector_results id0 = none ∧ rankOfId graph_results id0 = none
      then none
      else some (rrfContribution vector_results vector_weight rrf_k id0 +
        rrfContribution graph_results graph_weight rrf_k id0) := by
  unfold HybridRetriever.reciprocal_rank_fusion
  rw [foldl_upsert_dictGet graph_results graph_weight rrf_k _ id0 0 hg1 hg2]
  rw [foldl_upsert_dictGet vector_results vector_weight rrf_k [] id0 0 hv1 hv2]
  cases hv : rankOfId vector_results id0 with
  | none =>
      cases hg : rankOfId graph_results id0 with
      | none => simp [rrfContribution, hv, hg, dictGet]
      | some j =>
          simp [rrfContribution, hv, hg, dictGet]
  | some i =>
      cases hg : rankOfId graph_results id0 with
      | none =>
          simp [rrfContribution, hv, hg, dictGet]
      | some j =>
          simp [rrfContribution, hv, hg, dictGet]

/-- C5 (witness): the fusion formula evaluated on concrete two-element and
one-element ranked lists sharing one id. -/
theorem reciprocal_rank_fusion_formula_witness :
    ranksPositional
      [{ id := "a", content := [], score := 1, method := .vector, rank := 1 },
       { id := "b", content := [], score := 1/2, method := .vector, rank := 2 }] ∧
    idsNodup
      [{ id := "a", content := [], score := 1, method := .vector, rank := 1 },
       { id := "b", content := [], score := 1/2, method := .vector, rank := 2 }] ∧
    ranksPositional
      [{ id := "b", content := [], score := 1, method := .graph, rank := 1 }] ∧
    idsNodup
      [{ id := "b", content := [], score := 1, method := .graph, rank := 1 }] ∧
    dictGet (HybridRetriever.reciprocal_rank_fusion
        [{ id := "a", content := [], score := 1, method := .vector, rank := 1 },
         { id := "b", content := [], score := 1/2, method := .vector, rank := 2 }]
        [{ id := "b", content := [], score := 1, method := .graph, rank := 1 }]
        (1/2) (1/2) 60) "b" =
      if rankOfId
          [{ id := "a", content := [], score := 1, method := .vector, rank := 1 },
           { id := "b", content := [], score := 1/2, method := .vector, rank := 2 }]
          "b" = none ∧
        rankOfId
          [{ id := "b", content := [], score := 1, method := .graph, rank := 1 }]
          "b" = none
      then none
      else some (rrfContribution
          [{ id := "a", content := [], score := 1, method := .vector, rank := 1 },
           { id := "b", content := [], score := 1/2, method := .vector, rank := 2 }]
          (1/2) 60 "b" +
        rrfContribution
          [{ id := "b", content := [], score := 1, method := .graph, rank := 1 }]
          (1/2) 60 "b") :=
  ⟨by unfold ranksPositional; decide, by unfold idsNodup; decide,
    by unfold ranksPositional; decide, by unfold idsNodup; decide,
    reciprocal_rank_fusion_formula _ _ (1/2) (1/2) 60 "b"
      (by unfold ranksPositional; decide) (by unfold idsNodup; decide)
      (by unfold ranksPositional; decide) (by unfold idsNodup; decide)⟩

/-- C6: the policy decision follows the fixed first-match-wins rule order
over case-insensitive substring checks: an explicit valid method hint is
honoured with confidence 1.0; else citation vocabulary gives Graph at 0.8;
else the arxiv / paper: identifier pattern gives Vector at 0.9; else
comparison vocabulary gives Hybrid {0.5, 0.5} at 0.7; else exploratory
vocabulary gives Hybrid {0.4, 0.6} at 0.75; else the default is Hybrid
{0.5, 0.5} at 0.5. -/
theorem decide_method_rule_order :
    (∀ (query h : String) (m : RetrievalMethod), h ≠ "" →
      methodOfString h = some m →
      AgenticRAG.decide_method query (some h) =
        .ok { method := m, reasoning := "User specified method: " ++ h,
              confidence := 1 }) ∧
    (∀ query : String,
      containsAny (pyLower query)
        ["cite", "citation", "reference", "related to"] = true →
      AgenticRAG.decide_method query none =
        .ok { method := .graph,
              reasoning := "Query asks for citation relationships",
              confidence := 4/5 }) ∧
    (∀ query : String,
      containsAny (pyLower query)
        ["cite", "citation", "reference", "related to"] = false →
      (strContains (pyLower query) "arxiv" ||
        strContains (pyLower query) "paper:") = true →
      AgenticRAG.decide_method query none =
        .ok { method := .vector,
              reasoning := "Query targets specific papers",
              confidence := 9/10 }) ∧
    (∀ query : String,
      containsAny (pyLower query)
        ["cite", "citation", "reference", "related to"] = false →
      (strContains (pyLower query) "arxiv" ||
        strContains (pyLower query) "paper:") = false →
      containsAny (pyLower query) ["vs", "versus", "compare", "difference"]
        = true →
      AgenticRAG.decide_method query none =
        .ok { method := .hybrid,
              reasoning := "Comparative query benefits from both methods",
              vector_weight := some (1/2), graph_weight := some (1/2),
              confidence := 7/10 }) ∧
    (∀ query : String,
      containsAny (pyLower query)
        ["cite", "citation", "reference", "related to"] = false →
      (strContains (pyLower query) "arxiv" ||
        strContains (pyLower query) "paper:") = false →
      containsAny (pyLower query) ["vs", "versus", "compare", "difference"]
        = false →
      containsAny (pyLower query)
        ["overview", "survey", "state of the art", "recent advances"] = true →
      AgenticRAG.decide_method query none =
        .ok { method := .hybrid,
              reasoning := "Exploratory query needs breadth and depth",
              vector_weight := some (2/5), graph_weight := some (3/5),
              confidence := 3/4 }) ∧
    (∀ query : String,
      containsAny (pyLower query)
        ["cite", "citation", "reference", "related to"] = false →
      (strContains (pyLower query) "arxiv" ||
        strContains (pyLower query) "paper:") = false →
      containsAny (pyLower query) ["vs", "versus", "compare", "difference"]
        = false →
      containsAny (pyLower query)
        ["overview", "survey", "state of the art", "recent advances"] = false →
      AgenticRAG.decide_method query none =
        .ok { method := .hybrid,
              reasoning := "Default: use hybrid for comprehensive results",
              vector_weight := some (1/2), graph_weight := some (1/2),
              confidence := 1/2 }) := by
  refine ⟨?_, ?_, ?_, ?_, ?_, ?_⟩
  · intro query h m hne hm
    simp [AgenticRAG.decide_method, hne, hm]
  · intro query hc
    simp [AgenticRAG.decide_method, AgenticRAG.classifyQuery, hc]
  · intro query hc hi
    simp [AgenticRAG.decide_method, AgenticRAG.classifyQuery, hc, hi]
  · intro query hc hi hcomp
    simp [AgenticRAG.decide_method, AgenticRAG.classifyQuery, hc, hi, hcomp]
  · intro query hc hi hcomp hexp
    simp [AgenticRAG.decide_method, AgenticRAG.classifyQuery, hc, hi, hcomp,
      hexp]
  · intro query hc hi hcomp hexp
    simp [AgenticRAG.decide_method, AgenticRAG.classifyQuery, hc, hi, hcomp,
      hexp]

/-- C6 (witness): each rule applied to a concrete query that triggers it,
with all earlier rules concretely ruled out. -/
theorem decide_method_rule_order_witness :
    (("graph" : String) ≠ "" ∧ methodOfString "graph" = some .graph ∧
      AgenticRAG.decide_method "anything" (some "graph") =
        .ok { method := .graph,
              reasoning := "User specified method: " ++ "graph",
              confidence := 1 }) ∧
    (containsAny (pyLower "papers that cite transformers")
        ["cite", "citation", "reference", "related to"] = true ∧
      AgenticRAG.decide_method "papers that cite transformers" none =
        .ok { method := .graph,
              reasoning := "Query asks for citation relationships",
              confidence := 4/5 }) ∧
    (AgenticRAG.decide_method "arxiv 1706.03762" none =
      .ok { method := .vector,
            reasoning := "Query targets specific papers",
            confidence := 9/10 }) ∧
    (AgenticRAG.decide_method "langgraph vs crewai" none =
      .ok { method := .hybrid,
            reasoning := "Comparative query benefits from both methods",
            vector_weight := some (1/2), graph_weight := some (1/2),
            confidence := 7/10 }) ∧
    (AgenticRAG.decide_method "overview of agent memory" none =
      .ok { method := .hybrid,
            reasoning := "Exploratory query needs breadth and depth",
            vector_weight := some (2/5), graph_weight := some (3/5),
            confidence := 3/4 }) ∧
    (AgenticRAG.decide_method "agent memory" none =
      .ok { method := .hybrid,
            reasoning := "Default: use hybrid for comprehensive results",
            vector_weight := some (1/2), graph_weight := some (1/2),
            confidence := 1/2 }) :=
  ⟨⟨by decide, by decide,
      decide_method_rule_order.1 "anything" "graph" .graph
        (by decide) (by decide)⟩,
    ⟨by decide,
      decide_method_rule_order.2.1 "papers that cite transformers"
        (by decide)⟩,
    decide_method_rule_order.2.2.1 "arxiv 1706.03762" (by decide) (by decide),
    decide_method_rule_order.2.2.2.1 "langgraph vs crewai"
      (by decide) (by decide) (by decide),
    decide_method_rule_order.2.2.2.2.1 "overview of agent memory"
      (by decide) (by decide) (by decide) (by decide),
    decide_method_rule_order.2.2.2.2.2 "agent memory"
      (by decide) (by decide) (by decide) (by decide)⟩

/-- C2 (counterexample): searching "agent orchestration" in memory-fallback
mode over a store holding exactly one document whose tokens are exactly
those two returns that document with score 1 (non-zero), but no
similarity_metric marker is present anywhere: the result carries the
document with its own metadata untouched, and that metadata has no
similarity_metric key at all, token_overlap or otherwise. -/
theorem memory_search_no_similarity_marker :
    (VectorStore.memory_search
        [("d1", { id := "d1", content := "agent orchestration" })]
        "agent orchestration" 5).map
      (fun r => dictGet r.document.metadata "similarity_metric") = [none] ∧
    (VectorStore.memory_search
        [("d1", { id := "d1", content := "agent orchestration" })]
        "agent orchestration" 5).map
      (fun r => (r.document.id, r.score)) = [("d1", 1)] := by
  constructor
  · rfl
  · have heval : (VectorStore.memory_search
        [("d1", { id := "d1", content := "agent orchestration" })]
        "agent orchestration" 5).map
      (fun r => (r.document.id, r.score)) =
        [("d1", ((2 : ℕ) : ℚ) / ((2 : ℕ) : ℚ))] := rfl
    rw [heval]
    norm_num

/-- C2 (amended): with no embedding capability configured the memory
fallback scores every stored document by token overlap and returns
exactly the documents with positive overlap, each result carrying score
|query_tokens ∩ doc_tokens| / max(|query_tokens|, 1), the stored document
unchanged (in particular its own metadata, with no similarity_metric
marker added), and the default distance 0; the two-token scenario returns
the document with score 1. -/
theorem memory_search_token_overlap_scoring :
    (∀ (memory_store : List (String × Document)) (query : String) (n : Nat),
      (VectorStore.memory_search memory_store query n).Forall (fun r =>
        (∃ p ∈ memory_store, r.document = p.2) ∧
        r.score = ((((pyLowerSplit query).toFinset ∩
            (pyLowerSplit r.document.content).toFinset).card : ℚ)) /
          ((max (pyLowerSplit query).toFinset.card 1 : ℕ) : ℚ) ∧
        0 < ((pyLowerSplit query).toFinset ∩
            (pyLowerSplit r.document.content).toFinset).card ∧
        r.distance = 0)) ∧
    (VectorStore.memory_search
        [("d1", { id := "d1", content := "agent orchestration" })]
        "agent orchestration" 5).map
      (fun r => (r.document.id, r.score)) = [("d1", 1)] := by
  constructor
  · intro memory_store query n
    rw [List.forall_iff_forall_mem]
    intro r hr
    have hr2 : r ∈ List.insertionSort
        (fun a b : SearchResult => b.score ≤ a.score)
        (memory_store.filterMap (fun p =>
          let doc_words := (pyLowerSplit p.2.content).toFinset
          let overlap := ((pyLowerSplit query).toFinset ∩ doc_words).card
          if 0 < overlap then
            some { document := p.2,
                   score := (overlap : ℚ) /
                     ((max (pyLowerSplit query).toFinset.card 1 : ℕ) : ℚ) }
          else none)) := List.mem_of_mem_take hr
    rw [(List.perm_insertionSort _ _).mem_iff, List.mem_filterMap] at hr2
    obtain ⟨p, hp, hpr⟩ := hr2
    by_cases hpos : 0 < ((pyLowerSplit query).toFinset ∩
        (pyLowerSplit p.2.content).toFinset).card
    · simp only [if_pos hpos] at hpr
      obtain rfl := Option.some.injEq _ _ |>.mp hpr
      exact ⟨⟨p, hp, rfl⟩, rfl, hpos, rfl⟩
    · simp only [if_neg hpos] at hpr
      exact absurd hpr (by simp)
  · have heval : (VectorStore.memory_search
        [("d1", { id := "d1", content := "agent orchestration" })]
        "agent orchestration" 5).map
      (fun r => (r.document.id, r.score)) =
        [("d1", ((2 : ℕ) : ℚ) / ((2 : ℕ) : ℚ))] := rfl
    rw [heval]
    norm_num

/-- Scores of a result list are in weakly descending order. -/
def scoresDescending (rs : List RetrievalResult) : Prop :=
  List.Pairwise (fun a b => b.score ≤ a.score) rs

instance : IsTotal (String × ℚ) (fun a b => b.2 ≤ a.2) :=
  ⟨fun a b => le_total b.2 a.2⟩

instance : IsTrans (String × ℚ) (fun a b => b.2 ≤ a.2) :=
  ⟨fun _ _ _ hab hbc => le_trans hbc hab⟩

instance : IsTotal (String × GraphNode × ℚ) (fun a b => b.2.2 ≤ a.2.2) :=
  ⟨fun a b => le_total b.2.2 a.2.2⟩

instance : IsTrans (String × GraphNode × ℚ) (fun a b => b.2.2 ≤ a.2.2) :=
  ⟨fun _ _ _ hab hbc => le_trans hbc hab⟩

lemma pairwise_enumFrom {γ : Type} (R : γ → γ → Prop) (l : List γ) (n : ℕ)
    (h : l.Pairwise R) :
    (List.enumFrom n l).Pairwise (fun p q => R p.2 q.2) := by
  induction l generalizing n with
  | nil => simp
  | cons a rest ih =>
      rw [List.pairwise_cons] at h
      simp only [List.enumFrom]
      rw [List.pairwise_cons]
      refine ⟨?_, ih (n + 1) h.2⟩
      rintro ⟨i, x⟩ hq
      have h3 := List.mem_enumFrom hq
      have hxmem : x ∈ rest := by
        rw [h3.2.2]
        exact List.getElem_mem _
      exact h.1 x hxmem

lemma build_ranksPositional {γ : Type} (l : List γ)
    (g : ℕ × γ → RetrievalResult) (hrank : ∀ p, (g p).rank = p.1) :
    ranksPositional ((List.enumFrom 1 l).map g) := by
  unfold ranksPositional
  rw [List.map_map, List.length_map, List.enumFrom_length]
  have hfun : ((fun r => r.rank) ∘ g) = Prod.fst := funext hrank
  rw [hfun, List.enumFrom_map_fst]

lemma build_scoresDescending {γ : Type} (l : List γ)
    (g : ℕ × γ → RetrievalResult) (sc : γ → ℚ)
    (hscore : ∀ p, (g p).score = sc p.2)
    (hsorted : l.Pairwise (fun a b => sc b ≤ sc a)) :
    scoresDescending ((List.enumFrom 1 l).map g) := by
  unfold scoresDescending
  rw [List.pairwise_map]
  refine (pairwise_enumFrom _ l 1 hsorted).imp ?_
  intro p q h
  rw [hscore p, hscore q]
  exact h

lemma sorted_take {γ : Type} (r : γ → γ → Prop) [DecidableRel r] [IsTotal γ r]
    [IsTrans γ r] (l : List γ) (k : Nat) :
    ((List.insertionSort r l).take k).Pairwise r :=
  List.Pairwise.sublist (List.take_sublist k _) (List.sorted_insertionSort r l)

lemma filterMap_rank_scores (l : List (ℕ × String × ℚ))
    (f : ℕ × String × ℚ → Option RetrievalResult)
    (hf : ∀ p ∈ l, ∃ b, f p = some b ∧ b.rank = p.1 ∧ b.score = p.2.2) :
    (l.filterMap f).map (fun r => r.rank) = l.map Prod.fst ∧
    (l.filterMap f).map (fun r => r.score) = l.map (fun p => p.2.2) := by
  induction l with
  | nil => simp
  | cons p rest ih =>
      obtain ⟨b, hb, h1, h2⟩ := hf p (List.mem_cons_self p rest)
      have ihr := ih (fun q hq => hf q (List.mem_cons_of_mem p hq))
      rw [List.filterMap_cons, hb]
      simp [ihr.1, ihr.2, h1, h2]

lemma mem_keys_upsertAdd (l : List (String × ℚ)) (k : String) (v : ℚ)
    (x : String) :
    x ∈ (upsertAdd l k v).map Prod.fst ↔ x = k ∨ x ∈ l.map Prod.fst := by
  induction l with
  | nil => simp [upsertAdd]
  | cons p rest ih =>
      obtain ⟨k1, v1⟩ := p
      by_cases h1 : k1 = k
      · subst h1
        simp [upsertAdd]
      · simp only [upsertAdd, if_neg h1, List.map_cons, List.mem_cons, ih]
        tauto

lemma mem_keys_foldl_upsert (rs : List RetrievalResult) (w k : ℚ)
    (acc : List (String × ℚ)) (x : String)
    (h : x ∈ (rs.foldl (fun a r =>
      upsertAdd a r.id (w / (k + (r.rank : ℚ)))) acc).map Prod.fst) :
    x ∈ acc.map Prod.fst ∨ x ∈ rs.map (fun r => r.id) := by
  induction rs generalizing acc with
  | nil => exact Or.inl h
  | cons r rest ih =>
      rw [List.foldl_cons] at h
      rcases ih _ h with h1 | h1
      · rcases (mem_keys_upsertAdd _ _ _ _).mp h1 with h2 | h2
        · exact Or.inr (by simp [h2])
        · exact Or.inl h2
      · exact Or.inr (List.mem_cons_of_mem _ h1)

lemma find_id_of_mem (rs : List RetrievalResult) (x : String)
    (h : x ∈ rs.map (fun r => r.id)) :
    ∃ rv, rs.find? (fun r => r.id = x) = some rv ∧ rv.id = x ∧ rv ∈ rs := by
  induction rs with
  | nil => simp at h
  | cons r rest ih =>
      by_cases hr : r.id = x
      · refine ⟨r, ?_, hr, List.mem_cons_self r rest⟩
        rw [List.find?_cons_of_pos _ (by simp [hr])]
      · have h2 : x ∈ rest.map (fun r => r.id) := by
          simp only [List.map_cons, List.mem_cons] at h
          exact h.resolve_left (fun hc => hr hc.symm)
        obtain ⟨rv, hfind, hid, hmem⟩ := ih h2
        exact ⟨rv, by rw [List.find?_cons_of_neg _ (by simp [hr]), hfind],
          hid, List.mem_cons_of_mem r hmem⟩

lemma assemble_some (vres gres : List RetrievalResult)
    (hcontent : ∀ r, (r ∈ vres ∨ r ∈ gres) → r.content ≠ [])
    (p : ℕ × String × ℚ)
    (hmem : p.2.1 ∈ vres.map (fun r => r.id) ∨
      p.2.1 ∈ gres.map (fun r => r.id)) :
    ∃ b, HybridRetriever.assemble vres gres p = some b ∧
      b.rank = p.1 ∧ b.score = p.2.2 := by
  by_cases hv : p.2.1 ∈ vres.map (fun r => r.id)
  · obtain ⟨rv, hfind, _hid, hmemv⟩ := find_id_of_mem vres p.2.1 hv
    have hc : rv.content ≠ [] := hcontent rv (Or.inl hmemv)
    refine ⟨{ id := p.2.1, content := rv.content, score := p.2.2,
              method := .hybrid, rank := p.1,
              metadata := [("rrf_score", .num p.2.2),
                ("vector_score", .num rv.score),
                ("vector_rank", .num rv.rank)] }, ?_, rfl, rfl⟩
    unfold HybridRetriever.assemble
    simp only [hfind]
    simp [hc]
  · have hg : p.2.1 ∈ gres.map (fun r => r.id) := hmem.resolve_left hv
    obtain ⟨rg, hfind, _hid, hmemg⟩ := find_id_of_mem gres p.2.1 hg
    have hc0 : rg.content ≠ [] := hcontent rg (Or.inr hmemg)
    have hvnone : vres.find? (fun r => decide (r.id = p.2.1)) = none := by
      rw [List.find?_eq_none]
      intro a ha hcontra
      exact hv (by
        simp only [decide_eq_true_eq] at hcontra
        exact hcontra ▸ List.mem_map_of_mem (fun r => r.id) ha)
    refine ⟨{ id := p.2.1, content := rg.content, score := p.2.2,
              method := .hybrid, rank := p.1,
              metadata := [("rrf_score", .num p.2.2),
                ("graph_score", .num rg.score),
                ("graph_rank", .num rg.rank)] }, ?_, rfl, rfl⟩
    unfold HybridRetriever.assemble
    simp only [hvnone, hfind]
    simp [hc0]

/-- C3 (amended): vector search and graph search always return densely
ranked lists (ranks exactly 1..N in list order) sorted by descending
score; hybrid search does too provided every fused candidate carries
non-empty content (content is looked up after ranks are assigned, and a
candidate with falsy content is silently dropped, leaving a rank gap —
see the counterexample). -/
theorem retrieval_ranks_dense_sorted :
    (∀ (α : Type) (sim : α → α → ℚ) (query_embedding : α)
      (embeddings : List (String × α))
      (documents : List (String × List (String × PyVal)))
      (top_k : Nat) (min_score : ℚ),
      ranksPositional (VectorStore.search sim query_embedding embeddings
        documents top_k min_score) ∧
      scoresDescending (VectorStore.search sim query_embedding embeddings
        documents top_k min_score)) ∧
    (∀ (m : SemanticMemory) (relevant_nodes : List (String × ℚ))
      (top_k search_depth : Nat) (query_concepts : List String),
      ranksPositional (GraphRetriever.searchRank m relevant_nodes top_k
        search_depth query_concepts) ∧
      scoresDescending (GraphRetriever.searchRank m relevant_nodes top_k
        search_depth query_concepts)) ∧
    (∀ (vector_results graph_results : List RetrievalResult)
      (vector_weight graph_weight rrf_k : ℚ) (top_k : Nat),
      (∀ r ∈ vector_results ++ graph_results, r.content ≠ []) →
      ranksPositional (HybridRetriever.search vector_results graph_results
        vector_weight graph_weight rrf_k top_k) ∧
      scoresDescending (HybridRetriever.search vector_results graph_results
        vector_weight graph_weight rrf_k top_k)) := by
  refine ⟨?_, ?_, ?_⟩
  · intro α sim qe embeddings documents top_k min_score
    by_cases he : embeddings.isEmpty
    · simp [VectorStore.search, he, ranksPositional, scoresDescending,
        List.range']
    · simp only [VectorStore.search, if_neg he]
      constructor
      · exact build_ranksPositional _ _ (fun p => rfl)
      · exact build_scoresDescending _ _ (fun x => x.2) (fun p => rfl)
          (sorted_take _ _ _)
  · intro m relevant_nodes top_k search_depth query_concepts
    simp only [GraphRetriever.searchRank]
    constructor
    · exact build_ranksPositional _ _ (fun p => rfl)
    · exact build_scoresDescending _ _ (fun x => x.2.2) (fun p => rfl)
        (sorted_take _ _ _)
  · intro vres gres vw gw k top_k hcontent
    have hcontent2 : ∀ r, (r ∈ vres ∨ r ∈ gres) → r.content ≠ [] :=
      fun r hor => hcontent r (List.mem_append.mpr hor)
    have hf : ∀ p ∈ List.enumFrom 1
        ((List.insertionSort (fun a b : String × ℚ => b.2 ≤ a.2)
          (HybridRetriever.reciprocal_rank_fusion vres gres vw gw k)).take
            top_k),
        ∃ b, HybridRetriever.assemble vres gres p = some b ∧
          b.rank = p.1 ∧ b.score = p.2.2 := by
      rintro ⟨i, q⟩ hp
      apply assemble_some vres gres hcontent2
      have hq1 : q ∈ (List.insertionSort (fun a b : String × ℚ => b.2 ≤ a.2)
          (HybridRetriever.reciprocal_rank_fusion vres gres vw gw k)).take
            top_k := by
        have h3 := List.mem_enumFrom hp
        rw [h3.2.2]
        exact List.getElem_mem _
      have hq2 : q ∈ HybridRetriever.reciprocal_rank_fusion vres gres vw gw k :=
        (List.perm_insertionSort _ _).mem_iff.mp (List.mem_of_mem_take hq1)
      have hq3 : q.1 ∈ (HybridRetriever.reciprocal_rank_fusion
          vres gres vw gw k).map Prod.fst :=
        List.mem_map_of_mem Prod.fst hq2
      unfold HybridRetriever.reciprocal_rank_fusion at hq3
      rcases mem_keys_foldl_upsert gres gw k _ q.1 hq3 with h4 | h4
      · rcases mem_keys_foldl_upsert vres vw k [] q.1 h4 with h5 | h5
        · simp at h5
        · exact Or.inl h5
      · exact Or.inr h4
    have hshape := filterMap_rank_scores _
      (HybridRetriever.assemble vres gres) hf
    have h1 := hshape.1
    rw [List.enumFrom_map_fst] at h1
    constructor
    · unfold ranksPositional
      simp only [HybridRetriever.search]
      have hlen : ((List.enumFrom 1
          ((List.insertionSort (fun a b : String × ℚ => b.2 ≤ a.2)
            (HybridRetriever.reciprocal_rank_fusion vres gres vw gw k)).take
              top_k)).filterMap (HybridRetriever.assemble vres gres)).length =
          ((List.insertionSort (fun a b : String × ℚ => b.2 ≤ a.2)
            (HybridRetriever.reciprocal_rank_fusion vres gres vw gw k)).take
              top_k).length := by
        rw [← List.length_map _ (fun r => r.rank), h1, List.length_range']
      rw [h1, hlen]
    · have hsorted : (((List.insertionSort
          (fun a b : String × ℚ => b.2 ≤ a.2)
          (HybridRetriever.reciprocal_rank_fusion vres gres vw gw k)).take
            top_k)).Pairwise (fun a b : String × ℚ => b.2 ≤ a.2) :=
        sorted_take _ _ _
      have henum := pairwise_enumFrom _ _ 1 hsorted
      unfold scoresDescending
      simp only [HybridRetriever.search]
      have hmap : List.Pairwise (fun a b : ℚ => b ≤ a)
          (((List.enumFrom 1
            ((List.insertionSort (fun a b : String × ℚ => b.2 ≤ a.2)
              (HybridRetriever.reciprocal_rank_fusion vres gres vw gw k)).take
                top_k)).filterMap (HybridRetriever.assemble vres gres)).map
            (fun r => r.score)) := by
        rw [hshape.2, List.pairwise_map]
        exact henum.imp (fun h => h)
      exact List.pairwise_map.mp hmap

/-- C3 (counterexample): ranks are not always dense.  With one vector
result whose content dict is empty and one graph result, the fused
candidates are ranked 1 and 2 by enumerate before content is attached;
the contentless candidate is then silently dropped, so hybrid search
returns a single result carrying rank 2, not rank 1. -/
theorem hybrid_rank_gap :
    (HybridRetriever.search
        [{ id := "a", content := [], score := 9/10, method := .vector,
           rank := 1 }]
        [{ id := "b", content := [("name", PyVal.str "B")], score := 1,
           method := .graph, rank := 1 }]
        1 1 60 10).map (fun r => (r.id, r.rank)) = [("b", 2)] ∧
    ¬ ranksPositional (HybridRetriever.search
        [{ id := "a", content := [], score := 9/10, method := .vector,
           rank := 1 }]
        [{ id := "b", content := [("name", PyVal.str "B")], score := 1,
           method := .graph, rank := 1 }]
        1 1 60 10) := by
  have hba : (decide (("b" : String) = "a")) = false := rfl
  have hab : (decide (("a" : String) = "b")) = false := rfl
  have heval : (HybridRetriever.search
      [{ id := "a", content := [], score := 9/10, method := .vector,
         rank := 1 }]
      [{ id := "b", content := [("name", PyVal.str "B")], score := 1,
         method := .graph, rank := 1 }]
      1 1 60 10).map (fun r => (r.id, r.rank)) = [("b", 2)] := by
    norm_num [HybridRetriever.search, HybridRetriever.reciprocal_rank_fusion,
      upsertAdd, HybridRetriever.assemble, List.insertionSort,
      List.orderedInsert, List.enumFrom, List.filterMap, List.find?, hba, hab]
  refine ⟨heval, ?_⟩
  intro hpos
  have h2 := congrArg (List.map Prod.snd) heval
  rw [List.map_map] at h2
  unfold ranksPositional at hpos
  have hlen := congrArg List.length h2
  rw [List.length_map] at hlen
  rw [show ((Prod.snd ∘ fun r : RetrievalResult => (r.id, r.rank)) =
    fun r : RetrievalResult => r.rank) from rfl] at h2
  rw [h2, hlen] at hpos
  exact absurd hpos (by decide)

/-- C3 (witness): the three parts of the dense-ranking theorem applied to
concrete inputs, the hybrid part with every content dict non-empty. -/
theorem retrieval_ranks_dense_sorted_witness :
    (ranksPositional (VectorStore.search (fun _ _ : ℚ => 0) 0 [("d", 0)]
        [] 10 0) ∧
      scoresDescending (VectorStore.search (fun _ _ : ℚ => 0) 0 [("d", 0)]
        [] 10 0)) ∧
    (ranksPositional (GraphRetriever.searchRank emptyMemory [] 10 2 []) ∧
      scoresDescending (GraphRetriever.searchRank emptyMemory [] 10 2 [])) ∧
    ((∀ r ∈ [{ id := "a", content := [("t", PyVal.str "x")], score := 1,
               method := RetrievalMethod.vector, rank := 1,
               metadata := [] : RetrievalResult }] ++
        ([] : List RetrievalResult), r.content ≠ []) ∧
      (ranksPositional (HybridRetriever.search
          [{ id := "a", content := [("t", PyVal.str "x")], score := 1,
             method := .vector, rank := 1, metadata := [] }] [] 1 1 60 10) ∧
        scoresDescending (HybridRetriever.search
          [{ id := "a", content := [("t", PyVal.str "x")], score := 1,
             method := .vector, rank := 1, metadata := [] }] [] 1 1 60 10))) :=
  ⟨retrieval_ranks_dense_sorted.1 ℚ (fun _ _ => 0) 0 [("d", 0)] [] 10 0,
    retrieval_ranks_dense_sorted.2.1 emptyMemory [] 10 2 [],
    by decide,
    retrieval_ranks_dense_sorted.2.2
      [{ id := "a", content := [("t", PyVal.str "x")], score := 1,
         method := .vector, rank := 1, metadata := [] }] [] 1 1 60 10
      (by decide)⟩
